import Mathlib

/-!
Verification of the statistical aggregation core of the YH dashboard
(`backend/data_processing.py`).

The Python/pandas/DuckDB code is shallowly embedded: a data frame becomes a
list of records together with an explicit list of column names where column
presence matters; numeric cell values become `ℚ` (an `Option ℚ` where the cell
may be missing/NULL); fallible functions return `Except String`.

Floating point arithmetic is idealised as exact rational arithmetic.  Python's
`round(x, 1)` (round-half-to-even) and DuckDB's `ROUND(x, 1)`
(round-half-away-from-zero) are modelled separately on `ℚ`.
-/

namespace YhDash

/-- Python `round(q)` to an integer: round half to even (banker's rounding). -/
def roundHalfEven (q : ℚ) : ℤ :=
  let n := q.floor
  let f := q - (n : ℚ)
  if f < 1/2 then n
  else if 1/2 < f then n + 1
  else if n % 2 = 0 then n else n + 1

/-- Python `round(q, 1)`: one decimal, ties to even. -/
def pyRound1 (q : ℚ) : ℚ := (roundHalfEven (q * 10) : ℚ) / 10

/-- DuckDB `ROUND(q, 1)`: one decimal, ties away from zero. -/
def duckRound1 (q : ℚ) : ℚ :=
  if 0 ≤ q then ((q * 10 + 1/2).floor : ℚ) / 10
  else -(((-(q * 10) + 1/2).floor : ℚ) / 10)

/-- Python `str.strip()` restricted to the whitespace the data contains. -/
def pyStrip (s : String) : String :=
  ⟨(((s.data.dropWhile Char.isWhitespace).reverse.dropWhile
      Char.isWhitespace).reverse)⟩

/-- DuckDB `TRIM(s)`: remove leading and trailing spaces. -/
def duckTrim (s : String) : String :=
  ⟨(((s.data.dropWhile (· = ' ')).reverse.dropWhile (· = ' ')).reverse)⟩

/-! ### `get_statistics` (data_processing.py lines 35-38 and 149-208)

One row of the results sheet, restricted to the columns `get_statistics`
reads: `Län`, `Beslut`, `Utbildningsområde`.  `Utbildningsområde` is
`Option String` because pandas' `groupby` drops rows whose group key is
missing (NaN), which is observable in the education-area breakdown; a missing
value is `none`.  The two seat-sum entries of the stats dict
(`_sum_col_numeric`) are not modelled: no claim mentions them. -/
structure Record where
  lan : String
  beslut : String
  omrade : Option String
deriving DecidableEq, Repr

/-- A data frame: declared columns plus rows (for the fixed-schema part). -/
structure Frame where
  cols : List String
  rows : List Record
deriving DecidableEq, Repr

/-- `REQUIRED_COLUMNS`, listed in Python's `sorted` order as used in the
`_validate_df` error message. -/
def requiredColumns : List String := ["Beslut", "Län", "Utbildningsområde"]

/-- `REQUIRED_COLUMNS - set(df.columns)` (in sorted order). -/
def missingRequired (f : Frame) : List String :=
  requiredColumns.filter (fun c => !f.cols.contains c)

/-- The scoped rows: filter by `Län == county.strip()` when a county is
given, otherwise the whole frame (lines 158-165). -/
def scopeRows (rows : List Record) (county : Option String) : List Record :=
  match county with
  | some c => rows.filter (fun r => pyStrip r.lan == pyStrip c)
  | none => rows

/-- The scalar statistics of the stats dict (lines 167-180). -/
structure Stats where
  total : ℕ
  approved : ℕ
  rejected : ℕ
  approvalRate : ℚ
deriving DecidableEq, Repr

def statsOf (scRows : List Record) : Stats :=
  let total := scRows.length
  let approved := scRows.countP (fun r => r.beslut == "Beviljad")
  let rejected := scRows.countP (fun r => r.beslut == "Avslag")
  { total := total
    approved := approved
    rejected := rejected
    approvalRate :=
      if total = 0 then 0 else pyRound1 ((approved : ℚ) / (total : ℚ) * 100) }

/-- One row of the education-area summary table (lines 188-207). -/
structure BreakdownRow where
  omrade : String
  ansokta : ℕ
  beviljade : ℕ
  grad : ℚ
deriving DecidableEq, Repr

/-- String order used by pandas when sorting `groupby` keys. -/
def strLE (s t : String) : Prop := s.data ≤ t.data

instance : DecidableRel strLE := fun s t =>
  inferInstanceAs (Decidable (s.data ≤ t.data))

instance : IsTotal String strLE := ⟨fun s t => le_total s.data t.data⟩

instance : IsTrans String strLE := ⟨fun _ _ _ h h' => le_trans h h'⟩

/-- `groupby(COL_EDUCATION_AREA)` key order: distinct non-missing areas,
sorted (pandas `groupby` sorts keys and drops missing keys). -/
def areasOf (scRows : List Record) : List String :=
  List.insertionSort strLE (scRows.filterMap Record.omrade).dedup

/-- The per-area summary: requested count, approved count, rate (approved
series missing for an area means 0 via `fillna(0)`); finally sorted by
`Ansökta utbildningar` ascending (line 207). -/
def breakdownOf (scRows : List Record) : List BreakdownRow :=
  let rows := (areasOf scRows).map (fun a =>
    let t := scRows.countP (fun r => r.omrade == some a)
    let b := scRows.countP (fun r => r.omrade == some a && r.beslut == "Beviljad")
    { omrade := a
      ansokta := t
      beviljade := b
      grad := if t = 0 then 0 else pyRound1 ((b : ℚ) / (t : ℚ) * 100) })
  List.insertionSort (fun x y => x.ansokta ≤ y.ansokta) rows

/-- `get_statistics`: validate the schema (raising `ValueError` on missing
required columns, line 35-38/156), then compute the summary table and stats
dict.  On an empty scope the summary is the empty table (lines 182-186). -/
def getStatistics (f : Frame) (county : Option String) :
    Except String (List BreakdownRow × Stats) :=
  match missingRequired f with
  | [] =>
    let scRows := scopeRows f.rows county
    Except.ok (breakdownOf scRows, statsOf scRows)
  | ms => Except.error ("Missing columns in get_statistics() input: " ++ toString ms)

/-! ### `enrich_base_data` join step (data_processing.py lines 84-134)

Only the parts the enrichment claim is about are modelled: key
normalisation, de-duplication of the secondary selection (`drop_duplicates`
with `keep="last"`, line 115) and the left join (lines 128-132).  The column
selection and the row-wise sum (lines 90-112) only add columns and change no
row multiplicity.  A base row is its key plus its other cells (opaque here);
a secondary (applications) row likewise. -/
structure BaseRow where
  key : String
  cells : String
deriving DecidableEq, Repr

structure AppsRow where
  key : String
  cells : String
deriving DecidableEq, Repr

/-- `base[key_col] = base[key_col].astype(str).str.strip()` (line 85/88). -/
def normBase (b : BaseRow) : BaseRow := { b with key := pyStrip b.key }

def normApps (a : AppsRow) : AppsRow := { a with key := pyStrip a.key }

/-- `apps_sel.drop_duplicates(subset=[key_col], keep="last")` (line 115):
keep, in order, each row that is the last occurrence of its key. -/
def dedupKeepLast : List AppsRow → List AppsRow
  | [] => []
  | r :: rest =>
    if rest.any (fun a => a.key == r.key) then dedupKeepLast rest
    else r :: dedupKeepLast rest

/-- Pandas left merge on the key: each base row is paired with every
matching secondary row, or with `none` when there is no match (lines
128-132; the `validate="m:1"` variant and its plain fallback produce the
same rows — validation only decides whether an exception is raised first,
and the fallback swallows it). -/
def mergeLeft (base : List BaseRow) (apps : List AppsRow) :
    List (BaseRow × Option AppsRow) :=
  (base.map (fun b =>
    let ms := apps.filter (fun a => a.key == b.key)
    if ms.isEmpty then [(b, (none : Option AppsRow))]
    else ms.map (fun m => (b, some m)))).flatten

/-- The join pipeline of `enrich_base_data`: normalise both key columns,
de-duplicate the secondary selection keeping the last occurrence, left-join. -/
def enrichJoin (base : List BaseRow) (apps : List AppsRow) :
    List (BaseRow × Option AppsRow) :=
  mergeLeft (base.map normBase) (dedupKeepLast (apps.map normApps))

/-- The last secondary row carrying a given key, if any. -/
def lastMatch (apps : List AppsRow) (k : String) : Option AppsRow :=
  (apps.filter (fun a => a.key == k)).getLast?

/-! ### `summarize_providers` (data_processing.py lines 272-355)

The DuckDB query is embedded in two layers: column resolution (lines
285-313), which decides whether the function raises and which requested-seats
expression is used, and the aggregation/ranking query itself (lines 315-346),
which operates on the rows' values.  A provider row carries the trimmed-name
source, the decision, the granted-places cell (`Option ℚ`, NULL possible) and
the evaluated requested-places expression for that row (`Option ℚ`). -/
structure PRow where
  anordnare : String
  beslut : String
  granted : Option ℚ
  applied : Option ℚ
deriving DecidableEq, Repr

/-- SQL `SUM` over a column: NULLs are skipped, and the sum of no non-NULL
values is NULL. -/
def sqlSum (l : List (Option ℚ)) : Option ℚ :=
  let vs := l.filterMap id
  if vs.isEmpty then none else some vs.sum

/-- `COALESCE(ROUND(100.0 * num / NULLIF(den, 0), 1), 0.0)` where `den` is
an SQL value (possibly NULL). -/
def rateOf (num : ℚ) (den : Option ℚ) : ℚ :=
  match den with
  | none => 0
  | some d => if d = 0 then 0 else duckRound1 (100 * num / d)

/-- One aggregated group of the `agg` CTE (lines 316-333). -/
structure Agg where
  provider : String
  beviljadePlatser : ℚ
  soktaPlatser : Option ℚ
  gradPlatser : ℚ
  beviljadeKurser : ℕ
  soktaKurser : ℕ
  gradKurser : ℚ
deriving DecidableEq, Repr

/-- `GROUP BY TRIM(provider)`: the distinct trimmed provider names. -/
def providersOf (rows : List PRow) : List String :=
  (rows.map (fun r => duckTrim r.anordnare)).dedup

def groupOf (rows : List PRow) (p : String) : List PRow :=
  rows.filter (fun r => duckTrim r.anordnare == p)

/-- The `agg` CTE: one row per distinct trimmed provider. -/
def aggregateProviders (rows : List PRow) : List Agg :=
  (providersOf rows).map (fun p =>
    let g := groupOf rows p
    let granted := (g.map (fun r => r.granted.getD 0)).sum
    let applied := sqlSum (g.map PRow.applied)
    let approved := g.countP (fun r => r.beslut == "Beviljad")
    { provider := p
      beviljadePlatser := granted
      soktaPlatser := applied
      gradPlatser := rateOf granted applied
      beviljadeKurser := approved
      soktaKurser := g.length
      gradKurser := rateOf (approved : ℚ) (some (g.length : ℚ)) })

/-- Strictly-better under an `ORDER BY x DESC, y DESC` key pair. -/
def kGT (a b : ℚ × ℚ) : Prop := b.1 < a.1 ∨ (a.1 = b.1 ∧ b.2 < a.2)

instance : DecidableRel kGT := fun a b =>
  inferInstanceAs (Decidable (b.1 < a.1 ∨ (a.1 = b.1 ∧ b.2 < a.2)))

/-- Sorts-before-or-equal under the same ordering key. -/
def keLE (a b : ℚ × ℚ) : Prop := kGT a b ∨ a = b

instance : DecidableRel keLE := fun a b =>
  inferInstanceAs (Decidable (kGT a b ∨ a = b))

instance : IsTrans (ℚ × ℚ) keLE :=
  ⟨by
    rintro a b c (hab | rfl) (hbc | rfl)
    · left
      rcases hab with h1 | ⟨e1, h2⟩ <;> rcases hbc with h3 | ⟨e3, h4⟩
      · exact Or.inl (lt_trans h3 h1)
      · exact Or.inl (e3 ▸ h1)
      · exact Or.inl (e1 ▸ h3)
      · exact Or.inr ⟨e1.trans e3, lt_trans h4 h2⟩
    · exact Or.inl hab
    · exact Or.inl hbc
    · exact Or.inr rfl⟩

instance : IsTotal (ℚ × ℚ) keLE :=
  ⟨by
    intro a b
    rcases lt_trichotomy a.1 b.1 with h | h | h
    · exact Or.inr (Or.inl (Or.inl h))
    · rcases lt_trichotomy a.2 b.2 with h2 | h2 | h2
      · exact Or.inr (Or.inl (Or.inr ⟨h.symm, h2⟩))
      · exact Or.inl (Or.inr (Prod.ext h h2))
      · exact Or.inl (Or.inl (Or.inr ⟨h, h2⟩))
    · exact Or.inl (Or.inl (Or.inl h))⟩

/-- `DENSE_RANK() OVER (ORDER BY ...)`: with a total order on the key, the
dense rank of a row is one more than the number of distinct key values that
sort strictly before its own (SQL dense ranks are 1-based and gap-free). -/
def denseRank (keys : List (ℚ × ℚ)) (k : ℚ × ℚ) : ℕ :=
  1 + ((keys.filter (fun k' => decide (kGT k' k))).dedup).length

/-- The seats ordering key of a group (`ORDER BY beviljade_platser DESC,
beviljandegrad_platser_pct DESC`, line 335). -/
def seatsKey (a : Agg) : ℚ × ℚ := (a.beviljadePlatser, a.gradPlatser)

/-- The courses ordering key (line 343). -/
def coursesKey (a : Agg) : ℚ × ℚ := ((a.beviljadeKurser : ℚ), a.gradKurser)

/-- One row of the final `SELECT` (lines 334-345). -/
structure OutRow where
  rankPlatser : ℕ
  anordnare : String
  beviljadePlatser : ℚ
  soktaPlatser : Option ℚ
  gradPlatser : ℚ
  beviljadeKurser : ℕ
  soktaKurser : ℕ
  gradKurser : ℚ
  rankKurser : ℕ
deriving DecidableEq, Repr

/-- Output ordering of the query: `ORDER BY "Ranking beviljade platser" ASC,
"Anordnare namn" ASC` (line 345). -/
def outLE (x y : OutRow) : Prop :=
  x.rankPlatser < y.rankPlatser ∨
    (x.rankPlatser = y.rankPlatser ∧ strLE x.anordnare y.anordnare)

instance : DecidableRel outLE := fun x y =>
  inferInstanceAs (Decidable (x.rankPlatser < y.rankPlatser ∨
    (x.rankPlatser = y.rankPlatser ∧ strLE x.anordnare y.anordnare)))

instance : IsTrans OutRow outLE :=
  ⟨by
    rintro a b c (h1 | ⟨e1, s1⟩) (h2 | ⟨e2, s2⟩)
    · exact Or.inl (lt_trans h1 h2)
    · exact Or.inl (e2 ▸ h1)
    · exact Or.inl (e1 ▸ h2)
    · exact Or.inr ⟨e1.trans e2, le_trans s1 s2⟩⟩

instance : IsTotal OutRow outLE :=
  ⟨by
    intro a b
    rcases lt_trichotomy a.rankPlatser b.rankPlatser with h | h | h
    · exact Or.inl (Or.inl h)
    · rcases le_total a.anordnare.data b.anordnare.data with h2 | h2
      · exact Or.inl (Or.inr ⟨h, h2⟩)
      · exact Or.inr (Or.inr ⟨h.symm, h2⟩)
    · exact Or.inr (Or.inl h)⟩

/-- The full query on already-resolved rows: aggregate, attach the two
independent dense ranks, order the result. -/
def summarizeAgg (rows : List PRow) : List OutRow :=
  let aggs := aggregateProviders rows
  let sKeys := aggs.map seatsKey
  let cKeys := aggs.map coursesKey
  let out := aggs.map (fun a =>
    { rankPlatser := denseRank sKeys (seatsKey a)
      anordnare := a.provider
      beviljadePlatser := a.beviljadePlatser
      soktaPlatser := a.soktaPlatser
      gradPlatser := a.gradPlatser
      beviljadeKurser := a.beviljadeKurser
      soktaKurser := a.soktaKurser
      gradKurser := a.gradKurser
      rankKurser := denseRank cKeys (coursesKey a) })
  List.insertionSort outLE out

/-- The partition order of the seats ranking window (`ORDER BY
beviljade_platser DESC, beviljandegrad_platser_pct DESC`). -/
def aggLE (x y : Agg) : Prop := keLE (seatsKey x) (seatsKey y)

instance : DecidableRel aggLE := fun x y =>
  inferInstanceAs (Decidable (keLE (seatsKey x) (seatsKey y)))

instance : IsTrans Agg aggLE :=
  ⟨fun _ _ _ h h' => @Trans.trans _ _ _ keLE keLE keLE _ _ _ _ h h'⟩

instance : IsTotal Agg aggLE :=
  ⟨fun x y => @IsTotal.total _ keLE _ (seatsKey x) (seatsKey y)⟩

/-- `granted_candidates` (lines 291-295); the third entry is the constant
`COL_TOTAL_BEVILJADE_PLATSER`, whose value repeats the first entry. -/
def grantedCandidates : List String :=
  ["Totalt antal beviljade platser", "Beviljade platser totalt",
   "Totalt antal beviljade platser"]

/-- How the requested-places expression was resolved (lines 303-313). -/
inductive AppliedSource where
  | totalCol
  | totSoktaCol
  | yearCols (cols : List String)
  | zero
deriving DecidableEq, Repr

/-- Requested-places resolution: prefer `COL_TOTAL_SOKTA`, then
`"Sökta platser totalt"`, then the year columns; else the literal `0`. -/
def resolveApplied (cols : List String) : AppliedSource :=
  if cols.contains "Totalt antal sökta platser" then .totalCol
  else if cols.contains "Sökta platser totalt" then .totSoktaCol
  else
    let yearCols := cols.filter (fun c => c.startsWith "Sökt antal platser ")
    if yearCols.isEmpty then .zero else .yearCols yearCols

/-- A provider frame: declared columns plus rows with resolved values. -/
structure PFrame where
  cols : List String
  rows : List PRow
deriving DecidableEq, Repr

/-- `summarize_providers` including its column checks: missing provider or
decision column raises; a granted-places column is resolved from
`granted_candidates` and its absence raises (lines 285-301); the
requested-places source falls back to the literal `0` without raising. -/
def summarizeProviders (f : PFrame) : Except String (List OutRow) :=
  if ¬ f.cols.contains "Anordnare namn" then
    Except.error "summarize_providers(): missing column 'Anordnare namn' in df"
  else if ¬ f.cols.contains "Beslut" then
    Except.error "summarize_providers(): missing column 'Beslut' in df"
  else
    match grantedCandidates.find? (fun c => f.cols.contains c) with
    | none => Except.error "summarize_providers(): could not find granted places column."
    | some _ => Except.ok (summarizeAgg f.rows)

/-! ### `calculate_gender_distribution` ratio search (lines 656-694)

The ratio computation runs once women-count and men-count are both
positive; shares are `ℚ`.  `best_error` starts at `float('inf')`, modelled
as `none`. -/

/-- `err < best_error`, where `none` is `float('inf')`. -/
def ltBest (err : ℚ) (best : Option ℚ) : Bool :=
  match best with
  | none => true
  | some e => decide (err < e)

/-- The `for denominator in range(1, 11)` loop (lines 670-692): numerators
are `round(share * denominator)`, a candidate with a zero numerator is
skipped, the lowest-error candidate is kept, and the loop breaks as soon as
the current best error drops below `0.01`. -/
def ratioSearch (ws ms : ℚ) : List ℕ → String × Option ℚ → String × Option ℚ
  | [], acc => acc
  | d :: rest, (br, be) =>
    let wn := roundHalfEven (ws * d)
    let mn := roundHalfEven (ms * d)
    if wn = 0 ∨ mn = 0 then ratioSearch ws ms rest (br, be)
    else
      let tw : ℚ := (wn : ℚ) / ((wn : ℚ) + (mn : ℚ))
      let tm : ℚ := (mn : ℚ) / ((wn : ℚ) + (mn : ℚ))
      let err := |tw - ws| + |tm - ms|
      if ltBest err be then
        let br' := toString wn ++ ":" ++ toString mn
        if err < 1/100 then (br', some err)
        else ratioSearch ws ms rest (br', some err)
      else ratioSearch ws ms rest (br, be)

/-- `ratio_simple` as a function of the two totals (lines 657-708; the
`all_students > 0` test is always true inside the `women_total > 0 and
men_total > 0` branch, so the gcd fallback of lines 695-706 is dead code). -/
def genderRatio (women men : ℕ) : String :=
  if 0 < women ∧ 0 < men then
    let all : ℚ := (women : ℚ) + (men : ℚ)
    (ratioSearch ((women : ℚ) / all) ((men : ℚ) / all)
      (List.range' 1 10) ("1:1", none)).1
  else "0:0"

/-- The error a denominator `d` scores in the search, `none` when the
candidate is skipped (used to state minimality of the returned ratio). -/
def candErr (ws ms : ℚ) (d : ℕ) : Option ℚ :=
  let wn := roundHalfEven (ws * d)
  let mn := roundHalfEven (ms * d)
  if wn = 0 ∨ mn = 0 then none
  else
    let tw : ℚ := (wn : ℚ) / ((wn : ℚ) + (mn : ℚ))
    let tm : ℚ := (mn : ℚ) / ((wn : ℚ) + (mn : ℚ))
    some (|tw - ws| + |tm - ms|)

/-! ### `calculate_year_growth` growth computation (lines 800-817) -/

structure GrowthStats where
  growthPct : ℚ
  growthCount : ℤ
  isIncrease : Bool
deriving DecidableEq, Repr

/-- The growth branch: percentage growth relative to the previous year's
total, which is `0` (not an error) when the previous total is not positive;
the returned `growth_pct` is rounded to one decimal (line 820). -/
def yearGrowthCore (currentTotal previousTotal : ℤ) : GrowthStats :=
  if 0 < previousTotal then
    let gc := currentTotal - previousTotal
    { growthPct := pyRound1 ((gc : ℚ) / (previousTotal : ℚ) * 100)
      growthCount := gc
      isIncrease := decide (0 < gc) }
  else
    { growthPct := 0, growthCount := 0, isIncrease := false }

/-! ### `match_region_codes` (lines 251-270) and its `difflib` semantics

`difflib.get_close_matches(region, keys, n=1)` with the default cutoff 0.6
is embedded down to `SequenceMatcher`'s matching-block algorithm: strings
are `List Char`, similarity scores are exact `ℚ`.  `isjunk` is `None`, so
the junk set is empty; the autojunk rule (elements of the second sequence
that are "popular" when it has at least 200 elements) is modelled in the
position table. -/

/-- Ascending positions of `c` in `b` (the `b2j` entry for `c`), with the
autojunk purge: for `len(b) >= 200`, an element occurring more than
`len(b) // 100 + 1` times is dropped from the table. -/
def b2j (b : List Char) (c : Char) : List ℕ :=
  let pos := (b.enum.filter (fun p => p.2 == c)).map Prod.fst
  if 200 ≤ b.length ∧ b.length / 100 + 1 < pos.length then [] else pos

/-- The dynamic-programming loop of `find_longest_match` over
`i in range(alo, ahi)`: returns the earliest-found longest matching block
`(besti, bestj, bestsize)` before the extension loops. -/
def flmCore (b2jf : Char → List ℕ) (a : List Char) (alo ahi blo bhi : ℕ) :
    ℕ × ℕ × ℕ :=
  let step := fun (st : (ℕ × ℕ × ℕ) × (ℕ → ℕ)) (i : ℕ) =>
    let j2len := st.2
    let js := match a.get? i with
      | none => []
      | some c => (b2jf c).filter (fun j => decide (blo ≤ j) && decide (j < bhi))
    js.foldl (fun (st2 : (ℕ × ℕ × ℕ) × (ℕ → ℕ)) (j : ℕ) =>
      let k := (if j = 0 then 0 else j2len (j - 1)) + 1
      let newj2len := fun j' => if j' = j then k else st2.2 j'
      (if st2.1.2.2 < k then (i + 1 - k, j + 1 - k, k) else st2.1, newj2len))
      (st.1, fun _ => 0)
  ((List.range' alo (ahi - alo)).foldl step ((alo, blo, 0), fun _ => 0)).1

/-- The backward extension loop of `find_longest_match` (with an empty junk
set, only the plain-character loop can fire). -/
def extendBack (a b : List Char) (alo blo : ℕ) :
    ℕ → ℕ × ℕ × ℕ → ℕ × ℕ × ℕ
  | 0, st => st
  | fuel + 1, (besti, bestj, bestsize) =>
    if alo < besti ∧ blo < bestj ∧ (a.get? (besti - 1)).isSome ∧
        a.get? (besti - 1) = b.get? (bestj - 1) then
      extendBack a b alo blo fuel (besti - 1, bestj - 1, bestsize + 1)
    else (besti, bestj, bestsize)

/-- The forward extension loop of `find_longest_match`. -/
def extendFwd (a b : List Char) (ahi bhi : ℕ) :
    ℕ → ℕ × ℕ × ℕ → ℕ × ℕ × ℕ
  | 0, st => st
  | fuel + 1, (besti, bestj, bestsize) =>
    if besti + bestsize < ahi ∧ bestj + bestsize < bhi ∧
        (a.get? (besti + bestsize)).isSome ∧
        a.get? (besti + bestsize) = b.get? (bestj + bestsize) then
      extendFwd a b ahi bhi fuel (besti, bestj, bestsize + 1)
    else (besti, bestj, bestsize)

/-- `find_longest_match(alo, ahi, blo, bhi)`. -/
def findLongestMatch (b2jf : Char → List ℕ) (a b : List Char)
    (alo ahi blo bhi : ℕ) : ℕ × ℕ × ℕ :=
  let st := flmCore b2jf a alo ahi blo bhi
  extendFwd a b ahi bhi ahi (extendBack a b alo blo st.1 st)

/-- Total size of all matching blocks (`get_matching_blocks`'s recursive
split around each longest match; the queue order does not affect the sum,
so it is written as a recursion with enough fuel). -/
def matchTotal (b2jf : Char → List ℕ) (a b : List Char) :
    ℕ → ℕ → ℕ → ℕ → ℕ → ℕ
  | 0, _, _, _, _ => 0
  | fuel + 1, alo, ahi, blo, bhi =>
    let m := findLongestMatch b2jf a b alo ahi blo bhi
    let i := m.1
    let j := m.2.1
    let k := m.2.2
    if k = 0 then 0
    else
      k + (if alo < i ∧ blo < j then matchTotal b2jf a b fuel alo i blo j else 0)
        + (if i + k < ahi ∧ j + k < bhi then
            matchTotal b2jf a b fuel (i + k) ahi (j + k) bhi else 0)

/-- `SequenceMatcher(None, a, b).ratio()`: `2 * M / T`, and 1 when both
sequences are empty (`_calculate_ratio`). -/
def smRatio (a b : List Char) : ℚ :=
  if a.length + b.length = 0 then 1
  else 2 * (matchTotal (b2j b) a b (a.length + b.length + 1) 0 a.length 0 b.length : ℚ) /
    ((a.length : ℚ) + (b.length : ℚ))

/-- `quick_ratio()`: matches counted as multiset intersection of elements. -/
def smQuickRatio (a b : List Char) : ℚ :=
  if a.length + b.length = 0 then 1
  else 2 * ((a.dedup.map (fun c => min (a.count c) (b.count c))).sum : ℚ) /
    ((a.length : ℚ) + (b.length : ℚ))

/-- `real_quick_ratio()`. -/
def smRealQuickRatio (a b : List Char) : ℚ :=
  if a.length + b.length = 0 then 1
  else 2 * ((min a.length b.length : ℕ) : ℚ) / ((a.length : ℚ) + (b.length : ℚ))

/-- The `get_close_matches` admission test for candidate `x` against `word`
(cutoff 0.6): all three ratio bounds at least the cutoff. -/
def passesCutoff (x word : String) : Prop :=
  3/5 ≤ smRealQuickRatio x.data word.data ∧
    3/5 ≤ smQuickRatio x.data word.data ∧ 3/5 ≤ smRatio x.data word.data

instance (x word : String) : Decidable (passesCutoff x word) :=
  inferInstanceAs (Decidable (_ ∧ _ ∧ _))

/-- Python string order (code-point lexicographic), strict. -/
def strLT (s t : String) : Prop := s.data < t.data

instance : DecidableRel strLT := fun s t =>
  inferInstanceAs (Decidable (s.data < t.data))

/-- Python `<` on the `(score, candidate)` tuples built by
`get_close_matches`. -/
def tupLT (p q : ℚ × String) : Prop := p.1 < q.1 ∨ (p.1 = q.1 ∧ strLT p.2 q.2)

instance : DecidableRel tupLT := fun p q =>
  inferInstanceAs (Decidable (p.1 < q.1 ∨ (p.1 = q.1 ∧ strLT p.2 q.2)))

/-- `heapq.nlargest(1, result)` on the `(score, x)` tuples: the maximum
tuple, if any. -/
def bestTuple (word : String) : List String → Option (ℚ × String)
  | [] => none
  | x :: rest =>
    let t := (smRatio x.data word.data, x)
    match bestTuple word rest with
    | none => some t
    | some u => if tupLT u t then some t else some u

/-- `difflib.get_close_matches(word, possibilities, n=1)` with the default
cutoff 0.6. -/
def getCloseMatches1 (word : String) (possibilities : List String) : List String :=
  match bestTuple word (possibilities.filter (fun x => decide (passesCutoff x word))) with
  | none => []
  | some t => [t.2]

/-- Python dict lookup on the name→code map built by
`build_region_code_map` (later bindings of the same name overwrite). -/
def lookupCode (codeMap : List (String × String)) (k : String) : Option String :=
  ((codeMap.filter (fun p => p.1 == k)).getLast?).map Prod.snd

/-- `list(code_map.keys())`: first-occurrence order, no duplicates. -/
def dictKeys (codeMap : List (String × String)) : List String :=
  (codeMap.map Prod.fst).dedup

/-- `match_region_codes` (lines 259-270). -/
def matchRegionCodes (regions : List String) (codeMap : List (String × String)) :
    List (Option String) :=
  regions.map (fun region =>
    match getCloseMatches1 region (dictKeys codeMap) with
    | [] => none
    | hit :: _ => lookupCode codeMap hit)

/-! ### Concrete scenario inputs used by the claims -/

/-- Scenario A of the spec: three records in region `X`, decisions
Approved, Approved, Rejected. -/
def scenarioA : Frame :=
  ⟨["Län", "Beslut", "Utbildningsområde"],
   [⟨"X", "Beviljad", some "Teknik"⟩, ⟨"X", "Beviljad", some "Teknik"⟩,
    ⟨"X", "Avslag", some "Vård"⟩]⟩

/-- A frame whose `Beslut` column is missing (schema-error witness). -/
def frameNoBeslut : Frame := ⟨["Län", "Utbildningsområde"], []⟩

/-- Scenario C of the spec realised as rows: P1 and P2 aggregate to granted
seats 100 with seats rate 50.0, P3 to granted seats 90 with seats rate
80.0. -/
def scenarioC : List PRow :=
  [⟨"P1", "Avslag", some 100, some 200⟩,
   ⟨"P2", "Avslag", some 100, some 200⟩,
   ⟨"P3", "Avslag", some 90, some (225/2)⟩]

/-- One provider row with requested seats 0 (zero-denominator witness). -/
def zeroSeatRows : List PRow := [⟨"P", "Avslag", none, some 0⟩]

/-- A one-row frame whose education area is missing. -/
def rowNoArea : Frame :=
  ⟨["Län", "Beslut", "Utbildningsområde"], [⟨"X", "Avslag", none⟩]⟩

/-- A tiny region-code map for the fuzzy-match witnesses. -/
def tinyCodeMap : List (String × String) := [("ab", "01")]

/-- A provider frame with both granted-places candidate columns absent. -/
def frameNoGranted : PFrame := ⟨["Anordnare namn", "Beslut"], []⟩

/-! ### Helper lemmas -/

/-- Counting records whose area is `some a` equals counting `a` in the
projected list of present areas. -/
theorem countP_omrade_eq_count (l : List Record) (a : String) :
    l.countP (fun r => r.omrade == some a) = (l.filterMap Record.omrade).count a := by
  induction l with
  | nil => rfl
  | cons r t ih =>
    cases h : r.omrade with
    | none => simp [List.countP_cons, List.filterMap_cons, h, ih]
    | some v =>
      by_cases hv : v = a
      · subst hv
        simp [List.countP_cons, List.filterMap_cons, h, ih, List.count_cons]
      · simp [List.countP_cons, List.filterMap_cons, h, ih, List.count_cons, hv,
          Ne.symm hv]

/-- The length of the projected-areas list counts the records with a
present area. -/
theorem length_filterMap_omrade (l : List Record) :
    (l.filterMap Record.omrade).length = l.countP (fun r => r.omrade.isSome) := by
  induction l with
  | nil => rfl
  | cons r t ih =>
    cases h : r.omrade with
    | none => simp [List.filterMap_cons, List.countP_cons, h, ih]
    | some v => simp [List.filterMap_cons, List.countP_cons, h, ih]

/-- Summing the multiplicities of the distinct values of a list recovers
its length. -/
theorem dedup_toFinset {α : Type} [DecidableEq α] (l : List α) :
    l.dedup.toFinset = l.toFinset := by
  ext a
  simp [List.mem_toFinset, List.mem_dedup]

theorem sum_dedup_count {α : Type} [DecidableEq α] (l : List α) :
    (l.dedup.map (fun a => l.count a)).sum = l.length := by
  have h1 : l.dedup.Nodup := l.nodup_dedup
  have h2 := (List.sum_toFinset (fun a => l.count a) h1).symm
  rw [dedup_toFinset] at h2
  rw [h2, List.sum_toFinset_count_eq_length]

/-! ### Claim theorems -/

set_option maxRecDepth 40000 in
/-- **C3.** For every input to `get_statistics`, `total` is the scoped row
count, `approved` counts rows with decision `Beviljad`, `rejected` counts
rows with decision `Avslag`, and the approval rate is
`approved / total * 100` rounded to one decimal; concretely, three records
in region `X` with decisions Approved, Approved, Rejected yield
`total = 3`, `approved = 2`, `rejected = 1`, rate `66.7`. -/
theorem claim_C3 (f : Frame) (county : Option String) (su : List BreakdownRow)
    (st : Stats) (h : getStatistics f county = Except.ok (su, st)) :
    st.total = (scopeRows f.rows county).length ∧
    st.approved = (scopeRows f.rows county).countP (fun r => r.beslut == "Beviljad") ∧
    st.rejected = (scopeRows f.rows county).countP (fun r => r.beslut == "Avslag") ∧
    st.approvalRate = pyRound1 ((st.approved : ℚ) / (st.total : ℚ) * 100) ∧
    (getStatistics scenarioA (some "X")).toOption.map
        (fun r => (r.2.total, r.2.approved, r.2.rejected, r.2.approvalRate)) =
      some (3, 2, 1, 667/10) := by
  cases hm : missingRequired f with
  | cons m ms => rw [getStatistics, hm] at h; exact absurd h (by simp)
  | nil =>
    rw [getStatistics, hm] at h
    simp only [Except.ok.injEq, Prod.mk.injEq] at h
    obtain ⟨-, hst⟩ := h
    subst hst
    refine ⟨rfl, rfl, rfl, ?_, by with_unfolding_all decide⟩
    show (if (scopeRows f.rows county).length = 0 then (0 : ℚ)
        else pyRound1 _) = _
    by_cases h0 : (scopeRows f.rows county).length = 0
    · have ha : (scopeRows f.rows county).countP
          (fun r => r.beslut == "Beviljad") = 0 :=
        Nat.le_zero.mp (h0 ▸ List.countP_le_length _)
      rw [if_pos h0]
      show (0 : ℚ) = pyRound1 _
      rw [statsOf]
      simp only [h0, ha]
      norm_num [pyRound1, roundHalfEven, Rat.floor]
    · rw [if_neg h0]
      rfl

/-- Witness for C3 at scenario A. -/
theorem claim_C3_witness :
    (statsOf (scopeRows scenarioA.rows (some "X"))).total =
      (scopeRows scenarioA.rows (some "X")).length :=
  (claim_C3 scenarioA (some "X") _ _ rfl).1

/-- **C7.** If any required column (`Län`, `Beslut`, `Utbildningsområde`)
is missing, `get_statistics` fails with the schema error, before any
statistic is computed. -/
theorem claim_C7 (f : Frame) (county : Option String) (c : String)
    (hc : c ∈ requiredColumns) (hm : c ∉ f.cols) :
    getStatistics f county =
      Except.error ("Missing columns in get_statistics() input: " ++
        toString (missingRequired f)) := by
  have hmem : c ∈ missingRequired f := by
    rw [missingRequired]
    refine List.mem_filter.mpr ⟨hc, ?_⟩
    simp [hm]
  cases hl : missingRequired f with
  | nil => rw [hl] at hmem; exact absurd hmem (by simp)
  | cons m ms => rw [getStatistics, hl]

/-- Witness for C7: dropping the `Beslut` column makes `get_statistics`
fail. -/
theorem claim_C7_witness :
    getStatistics frameNoBeslut none =
      Except.error ("Missing columns in get_statistics() input: " ++
        toString (missingRequired frameNoBeslut)) :=
  claim_C7 frameNoBeslut none "Beslut" (by decide) (by decide)

/-- **C2.** Every rate with a zero denominator is 0.0, never an error: the
scope approval rate on an empty scope, a provider's seats approval rate
when the requested-seats sum is 0 (or NULL), the courses approval rate on
an empty group, and the year-over-year growth percentage when the previous
year's total is 0. -/
theorem claim_C2 :
    (∀ sc : List Record, (statsOf sc).total = 0 → (statsOf sc).approvalRate = 0) ∧
    (∀ (rows : List PRow) (a : Agg), a ∈ aggregateProviders rows →
      a.soktaPlatser = some 0 ∨ a.soktaPlatser = none → a.gradPlatser = 0) ∧
    (∀ g : List PRow, g = [] →
      rateOf ((g.countP (fun r => r.beslut == "Beviljad")) : ℚ)
        (some ((g.length : ℕ) : ℚ)) = 0) ∧
    (∀ cur prev : ℤ, prev = 0 →
      (yearGrowthCore cur prev).growthPct = 0 ∧
        (yearGrowthCore cur prev).growthCount = 0) := by
  refine ⟨?_, ?_, ?_, ?_⟩
  · intro sc h0
    have h0' : sc.length = 0 := by simpa [statsOf] using h0
    simp [statsOf, h0']
  · intro rows a ha hz
    rw [aggregateProviders] at ha
    obtain ⟨p, _, rfl⟩ := List.mem_map.mp ha
    rcases hz with hz | hz <;>
      simp only at hz <;> simp [rateOf, hz]
  · intro g hg
    subst hg
    simp [rateOf]
  · intro cur prev h0
    subst h0
    rw [yearGrowthCore]
    norm_num

/-- Witness for C2 at an empty scope, a requested-seats sum of 0, an empty
group, and a previous-year total of 0. -/
theorem claim_C2_witness :
    (statsOf ([] : List Record)).approvalRate = 0 ∧
    (∀ a : Agg, a ∈ aggregateProviders zeroSeatRows → a.gradPlatser = 0) ∧
    rateOf ((([] : List PRow).countP (fun r => r.beslut == "Beviljad")) : ℚ)
      (some ((([] : List PRow).length : ℕ) : ℚ)) = 0 ∧
    (yearGrowthCore 5 0).growthPct = 0 := by
  refine ⟨claim_C2.1 [] rfl, ?_, claim_C2.2.2.1 [] rfl, (claim_C2.2.2.2 5 0 rfl).1⟩
  intro a ha
  refine claim_C2.2.1 zeroSeatRows a ha ?_
  have hz : aggregateProviders zeroSeatRows =
      [⟨"P", 0, some 0, 0, 0, 1, 0⟩] := by with_unfolding_all rfl
  rw [hz] at ha
  simp at ha
  subst ha
  left
  rfl

/-- Filtering the keep-last de-duplication by one key leaves exactly the
last row with that key (or nothing). -/
theorem filter_dedupKeepLast (l : List AppsRow) (k : String) :
    (dedupKeepLast l).filter (fun a => a.key == k) =
      ((l.filter (fun a => a.key == k)).getLast?).toList := by
  induction l with
  | nil => rfl
  | cons r rest ih =>
    by_cases hmem : rest.any (fun a => a.key == r.key)
    · rw [dedupKeepLast, if_pos hmem]
      by_cases hk : r.key = k
      · have hne : rest.filter (fun a => a.key == k) ≠ [] := by
          obtain ⟨a, ha, hak⟩ := List.any_eq_true.mp hmem
          have : a ∈ rest.filter (fun a => a.key == k) := by
            refine List.mem_filter.mpr ⟨ha, ?_⟩
            simp only [beq_iff_eq] at hak ⊢
            rw [hak, hk]
          exact List.ne_nil_of_mem this
        rw [List.filter_cons_of_pos (by simp [hk]), ih]
        obtain ⟨x, xs, hx⟩ := List.exists_cons_of_ne_nil hne
        rw [hx, List.getLast?_cons_cons]
      · rw [List.filter_cons_of_neg (by simp [hk]), ih]
    · rw [dedupKeepLast, if_neg hmem]
      by_cases hk : r.key = k
      · have hnil : rest.filter (fun a => a.key == k) = [] := by
          rw [List.filter_eq_nil_iff]
          intro a ha
          simp only [beq_iff_eq]
          intro hak
          exact hmem (List.any_eq_true.mpr ⟨a, ha, by simp [hak, hk]⟩)
        rw [List.filter_cons_of_pos (by simp [hk]),
          List.filter_cons_of_pos (by simp [hk]), ih, hnil]
        rfl
      · rw [List.filter_cons_of_neg (by simp [hk]),
          List.filter_cons_of_neg (by simp [hk]), ih]

/-- Flattening a list of singletons is a plain map. -/
theorem flatten_map_singleton {α β : Type} (l : List α) (g : α → β) :
    (l.map (fun a => [g a])).flatten = l.map g := by
  induction l with
  | nil => rfl
  | cons a t ih => simp [ih]

/-- **C6.** `enrich_base_data` keeps every base row exactly once and in
order, whatever the key multiplicities of the secondary data: the secondary
selection is de-duplicated by key keeping the last occurrence, so the
(validated, or plain-fallback) left join pairs each normalised base row
with the last secondary row sharing its key, if any. -/
theorem claim_C6 (base : List BaseRow) (apps : List AppsRow) :
    enrichJoin base apps =
      (base.map normBase).map
        (fun b => (b, lastMatch (apps.map normApps) b.key)) ∧
    (enrichJoin base apps).map Prod.fst = base.map normBase := by
  have hmain : enrichJoin base apps =
      (base.map normBase).map
        (fun b => (b, lastMatch (apps.map normApps) b.key)) := by
    rw [enrichJoin, mergeLeft]
    have hfun : ∀ b : BaseRow,
        (let ms := (dedupKeepLast (apps.map normApps)).filter
          (fun a => a.key == b.key)
         if ms.isEmpty then [(b, (none : Option AppsRow))]
         else ms.map (fun m => (b, some m))) =
        [(b, lastMatch (apps.map normApps) b.key)] := by
      intro b
      rw [lastMatch]
      simp only [filter_dedupKeepLast]
      cases h : ((apps.map normApps).filter
          (fun a => a.key == b.key)).getLast? with
      | none => simp [h]
      | some a => simp [h]
    calc ((base.map normBase).map (fun b =>
            let ms := (dedupKeepLast (apps.map normApps)).filter
              (fun a => a.key == b.key)
            if ms.isEmpty then [(b, (none : Option AppsRow))]
            else ms.map (fun m => (b, some m)))).flatten
        = ((base.map normBase).map (fun b =>
            [(b, lastMatch (apps.map normApps) b.key)])).flatten := by
          rw [List.map_congr_left (fun b _ => hfun b)]
      _ = (base.map normBase).map
            (fun b => (b, lastMatch (apps.map normApps) b.key)) :=
          flatten_map_singleton _ _
  refine ⟨hmain, ?_⟩
  rw [hmain]
  simp

/-- Sorting does not change the sum of a projection. -/
theorem sum_map_insertionSort {α : Type} (r : α → α → Prop) [DecidableRel r]
    (l : List α) (f : α → ℕ) :
    ((List.insertionSort r l).map f).sum = (l.map f).sum :=
  ((List.perm_insertionSort r l).map f).sum_eq

/-- **C4 (amended).** The education-area breakdown's requested counts sum
to the number of scoped records with a present education area — records
with a missing area are dropped from the breakdown (pandas `groupby` drops
missing keys) but still counted in `total`; when every scoped record has an
area, the sum equals the `ScopeStatistics` total. -/
theorem claim_C4_amended (sc : List Record) :
    ((breakdownOf sc).map BreakdownRow.ansokta).sum =
      sc.countP (fun r => r.omrade.isSome) ∧
    ((∀ r ∈ sc, (r.omrade).isSome) →
      ((breakdownOf sc).map BreakdownRow.ansokta).sum = (statsOf sc).total) := by
  have hsum : ((breakdownOf sc).map BreakdownRow.ansokta).sum =
      sc.countP (fun r => r.omrade.isSome) := by
    rw [breakdownOf]
    simp only [sum_map_insertionSort, List.map_map]
    have hpt : ∀ a : String, (BreakdownRow.ansokta ∘ (fun a =>
        let t := sc.countP (fun r => r.omrade == some a)
        let b := sc.countP (fun r => r.omrade == some a && r.beslut == "Beviljad")
        BreakdownRow.mk a t b
          (if t = 0 then 0 else pyRound1 ((b : ℚ) / (t : ℚ) * 100)))) a =
        (sc.filterMap Record.omrade).count a := by
      intro a
      exact countP_omrade_eq_count sc a
    rw [List.map_congr_left (fun a _ => hpt a)]
    rw [areasOf]
    have hps : List.Perm
        ((List.insertionSort strLE (sc.filterMap Record.omrade).dedup).map
          (fun a => (sc.filterMap Record.omrade).count a))
        (((sc.filterMap Record.omrade).dedup).map
          (fun a => (sc.filterMap Record.omrade).count a)) :=
      (List.perm_insertionSort _ _).map _
    rw [hps.sum_eq, sum_dedup_count, length_filterMap_omrade]
  refine ⟨hsum, fun hall => ?_⟩
  rw [hsum]
  show sc.countP (fun r => r.omrade.isSome) = sc.length
  exact List.countP_eq_length.mpr (fun r hr => by simpa using hall r hr)

/-- Witness for C4 at scenario A, where every record has an area. -/
theorem claim_C4_witness :
    ((breakdownOf scenarioA.rows).map BreakdownRow.ansokta).sum =
      (statsOf scenarioA.rows).total :=
  (claim_C4_amended scenarioA.rows).2 (by decide)

/-- Counterexample to C4 as stated: a single record with a missing
education area is counted in `total` but in no breakdown bucket, so the
breakdown sum is 0 while the total is 1. -/
theorem claim_C4_counterexample :
    ((getStatistics rowNoArea none).toOption.map
      (fun r => (((r.1).map BreakdownRow.ansokta).sum, r.2.total))) = some (0, 1) ∧
    (0 : ℕ) ≠ 1 :=
  ⟨by with_unfolding_all rfl, by decide⟩

/-- **C10.** When neither granted-places candidate column is present,
`summarize_providers` raises instead of defaulting to 0 — while the
requested-seats source resolves to the literal `0` when none of its
candidate columns exists. -/
theorem claim_C10 (f : PFrame)
    (h1 : "Totalt antal beviljade platser" ∉ f.cols)
    (h2 : "Beviljade platser totalt" ∉ f.cols) :
    (∃ msg, summarizeProviders f = Except.error msg) ∧
    (∀ cols : List String, "Totalt antal sökta platser" ∉ cols →
      "Sökta platser totalt" ∉ cols →
      (∀ c ∈ cols, ¬ c.startsWith "Sökt antal platser ") →
      resolveApplied cols = AppliedSource.zero) := by
  constructor
  · rw [summarizeProviders]
    by_cases hp : f.cols.contains "Anordnare namn"
    · by_cases hb : f.cols.contains "Beslut"
      · have hf : grantedCandidates.find? (fun c => f.cols.contains c) = none := by
          rw [List.find?_eq_none]
          intro x hx
          simp only [grantedCandidates, List.mem_cons, List.not_mem_nil,
            or_false] at hx
          rcases hx with rfl | rfl | rfl <;>
            simpa using (fun hmem => by
              first
              | exact h1 hmem
              | exact h2 hmem)
        rw [if_neg (by simpa using hp), if_neg (by simpa using hb), hf]
        exact ⟨_, rfl⟩
      · rw [if_neg (by simpa using hp), if_pos (by simpa using hb)]
        exact ⟨_, rfl⟩
    · rw [if_pos (by simpa using hp)]
      exact ⟨_, rfl⟩
  · intro cols hn1 hn2 hy
    rw [resolveApplied]
    rw [if_neg (by simpa using hn1), if_neg (by simpa using hn2)]
    have hz : cols.filter (fun c => c.startsWith "Sökt antal platser ") = [] := by
      rw [List.filter_eq_nil_iff]
      intro c hc
      simpa using hy c hc
    simp [hz]

/-- Witness for C10 with both granted candidates absent, and a column set
with no requested-seats source. -/
theorem claim_C10_witness :
    (∃ msg, summarizeProviders frameNoGranted = Except.error msg) ∧
    resolveApplied ["Beslut"] = AppliedSource.zero :=
  ⟨(claim_C10 frameNoGranted (by decide) (by decide)).1,
   (claim_C10 frameNoGranted (by decide) (by decide)).2 ["Beslut"]
     (by decide) (by decide) (by decide)⟩

/-- **C5.** The gender-ratio search tries denominators 1..10, numerators
`round(share * d)`, skips candidates with a zero numerator, keeps the
candidate with the least total absolute share error (accepting immediately
below 0.01); for women = 59, men = 41 it returns `"3:2"`, whose error 0.02
is minimal over the whole search space. -/
theorem claim_C5 :
    genderRatio 59 41 = "3:2" ∧
    candErr (59/100) (41/100) 5 = some (1/50) ∧
    ((List.range' 1 10).all fun d =>
      match candErr (59/100) (41/100) d with
      | none => true
      | some e => decide (1/50 ≤ e)) = true := by
  refine ⟨by with_unfolding_all rfl, by with_unfolding_all rfl,
    by with_unfolding_all rfl⟩

/-! ### Dense-rank facts -/

theorem kGT_irrefl (k : ℚ × ℚ) : ¬ kGT k k := by
  rintro (h | ⟨-, h⟩) <;> exact lt_irrefl _ h

theorem kGT_trans {a b c : ℚ × ℚ} (hab : kGT a b) (hbc : kGT b c) : kGT a c := by
  rcases hab with h1 | ⟨e1, h2⟩ <;> rcases hbc with h3 | ⟨e3, h4⟩
  · exact Or.inl (lt_trans h3 h1)
  · exact Or.inl (e3 ▸ h1)
  · exact Or.inl (e1 ▸ h3)
  · exact Or.inr ⟨e1.trans e3, lt_trans h4 h2⟩

theorem kGT_asymm {a b : ℚ × ℚ} (hab : kGT a b) : ¬ kGT b a :=
  fun hba => kGT_irrefl a (kGT_trans hab hba)

theorem kGT_total (a b : ℚ × ℚ) : kGT a b ∨ a = b ∨ kGT b a := by
  rcases lt_trichotomy a.1 b.1 with h | h | h
  · exact Or.inr (Or.inr (Or.inl h))
  · rcases lt_trichotomy a.2 b.2 with h2 | h2 | h2
    · exact Or.inr (Or.inr (Or.inr ⟨h.symm, h2⟩))
    · exact Or.inr (Or.inl (Prod.ext h h2))
    · exact Or.inl (Or.inr ⟨h, h2⟩)
  · exact Or.inl (Or.inl h)

/-- Dense ranks only depend on the multiset of keys. -/
theorem denseRank_perm {l l' : List (ℚ × ℚ)} (h : List.Perm l l')
    (k : ℚ × ℚ) : denseRank l k = denseRank l' k := by
  rw [denseRank, denseRank]
  exact congrArg (1 + ·) ((h.filter _).dedup.length_eq)

/-- The first key of a descending-sorted key list has dense rank 1. -/
theorem denseRank_head (l : List (ℚ × ℚ)) (hs : List.Sorted keLE l)
    (a : ℚ × ℚ) (ha : l.head? = some a) : denseRank l a = 1 := by
  cases l with
  | nil => cases ha
  | cons x xs =>
    have hax : a = x := by
      simpa using ha.symm
    subst hax
    have hfil : (a :: xs).filter (fun k' => decide (kGT k' a)) = [] := by
      rw [List.filter_eq_nil_iff]
      intro k hk
      simp only [decide_eq_true_eq]
      intro hgt
      rcases List.mem_cons.mp hk with rfl | hk'
      · exact kGT_irrefl _ hgt
      · rcases (List.sorted_cons.mp hs).1 k hk' with hgt' | heq
        · exact kGT_asymm hgt' hgt
        · exact kGT_irrefl k (heq ▸ hgt)
    rw [denseRank, hfil]
    rfl

/-- When every key strictly better than `y` is either strictly better than
`x` or equal to `x`, and `x` occurs among the keys, `y`'s dense rank is one
more than `x`'s. -/
theorem denseRank_succ (l : List (ℚ × ℚ)) (x y : ℚ × ℚ) (hx : x ∈ l)
    (hiff : ∀ k ∈ l, kGT k y ↔ (kGT k x ∨ k = x)) :
    denseRank l y = denseRank l x + 1 := by
  rw [denseRank, denseRank]
  have hcy : (l.filter (fun k' => decide (kGT k' y))).dedup.length =
      (l.toFinset.filter (fun k' => kGT k' y)).card := by
    rw [← List.card_toFinset, List.toFinset_filter]
    congr 1
    apply Finset.filter_congr
    intro k _
    simp
  have hcx : (l.filter (fun k' => decide (kGT k' x))).dedup.length =
      (l.toFinset.filter (fun k' => kGT k' x)).card := by
    rw [← List.card_toFinset, List.toFinset_filter]
    congr 1
    apply Finset.filter_congr
    intro k _
    simp
  rw [hcy, hcx]
  have hps : l.toFinset.filter (fun k' => kGT k' y) =
      (l.toFinset.filter (fun k' => kGT k' x)) ∪ {x} := by
    have h1 : l.toFinset.filter (fun k' => kGT k' y) =
        l.toFinset.filter (fun k' => kGT k' x ∨ k' = x) :=
      Finset.filter_congr (fun k hk => hiff k (List.mem_toFinset.mp hk))
    rw [h1, Finset.filter_or, Finset.filter_eq',
      if_pos (List.mem_toFinset.mpr hx)]
  rw [hps, Finset.card_union_of_disjoint, Finset.card_singleton]
  · omega
  · rw [Finset.disjoint_singleton_right]
    intro hmem
    exact kGT_irrefl x (Finset.mem_filter.mp hmem).2

/-- Along a descending-sorted key list, dense ranks repeat on equal
adjacent keys and grow by exactly one on strictly smaller adjacent keys. -/
theorem denseRank_chain (l : List (ℚ × ℚ)) (hs : List.Sorted keLE l) :
    List.Chain' (fun u v => denseRank l v =
      if v = u then denseRank l u else denseRank l u + 1) l := by
  rw [List.chain'_iff_get]
  intro i hi
  split_ifs with heq
  · rw [heq]
  · have hix : i < l.length := by omega
    have hiy : i + 1 < l.length := by omega
    have hxy : kGT (l.get ⟨i, hix⟩) (l.get ⟨i + 1, hiy⟩) := by
      have h := hs.rel_get_of_lt
        (show (⟨i, hix⟩ : Fin l.length) < ⟨i + 1, hiy⟩ from
          Fin.mk_lt_mk.mpr (Nat.lt_succ_self i))
      rcases h with h | h
      · exact h
      · exact absurd h.symm heq
    refine denseRank_succ l (l.get ⟨i, hix⟩) (l.get ⟨i + 1, hiy⟩)
      (List.get_mem l i hix) ?_
    intro k hk
    constructor
    · intro hky
      rcases kGT_total k (l.get ⟨i, hix⟩) with h | h | h
      · exact Or.inl h
      · exact Or.inr h
      · exfalso
        obtain ⟨⟨p, hp⟩, hkp⟩ := List.mem_iff_get.mp hk
        rcases lt_trichotomy p i with hpi | hpi | hpi
        · have hle := hs.rel_get_of_lt
            (show (⟨p, hp⟩ : Fin l.length) < ⟨i, hix⟩ from Fin.mk_lt_mk.mpr hpi)
          rw [hkp] at hle
          rcases hle with hgt' | heq'
          · exact kGT_asymm hgt' h
          · exact kGT_irrefl _ (heq' ▸ h)
        · subst hpi
          exact kGT_irrefl _ (hkp ▸ h)
        · rcases Nat.lt_or_ge (i + 1) p with hpi2 | hpi2
          · have hle := hs.rel_get_of_lt
              (show (⟨i + 1, hiy⟩ : Fin l.length) < ⟨p, hp⟩ from
                Fin.mk_lt_mk.mpr hpi2)
            rw [hkp] at hle
            rcases hle with hgt' | heq'
            · exact kGT_asymm hgt' hky
            · exact kGT_irrefl _ (heq' ▸ hky)
          · have hpe : p = i + 1 := le_antisymm hpi2 hpi
            subst hpe
            exact kGT_irrefl _ (hkp ▸ hky)
    · rintro (h | rfl)
      · exact kGT_trans h hxy
      · exact hxy

/-- **C1.** `summarize_providers` assigns 1-based dense seats ranks: over
the groups sorted by (granted seats sum DESC, seats rate DESC) the first
group has rank 1 and each next group repeats the previous rank exactly when
its key pair is unchanged, else adds 1; concretely P1(100, 50.0),
P2(100, 50.0), P3(90, 80.0) rank as P1 = 1, P2 = 1, P3 = 2. -/
theorem claim_C1 (rows : List PRow) :
    (((List.insertionSort aggLE (aggregateProviders rows)).map (fun a =>
        denseRank ((aggregateProviders rows).map seatsKey) (seatsKey a))).headD 1
      = 1) ∧
    List.Chain' (fun x y =>
      denseRank ((aggregateProviders rows).map seatsKey) (seatsKey y) =
        if seatsKey y = seatsKey x
        then denseRank ((aggregateProviders rows).map seatsKey) (seatsKey x)
        else denseRank ((aggregateProviders rows).map seatsKey) (seatsKey x) + 1)
      (List.insertionSort aggLE (aggregateProviders rows)) ∧
    (summarizeAgg scenarioC).map (fun o => (o.anordnare, o.rankPlatser)) =
      [("P1", 1), ("P2", 1), ("P3", 2)] := by
  have hperm : List.Perm ((aggregateProviders rows).map seatsKey)
      ((List.insertionSort aggLE (aggregateProviders rows)).map seatsKey) :=
    ((List.perm_insertionSort aggLE (aggregateProviders rows)).map seatsKey).symm
  have hsorted : List.Sorted keLE
      ((List.insertionSort aggLE (aggregateProviders rows)).map seatsKey) := by
    rw [List.Sorted, List.pairwise_map]
    exact List.sorted_insertionSort aggLE (aggregateProviders rows)
  refine ⟨?_, ?_, by with_unfolding_all rfl⟩
  · cases hl : List.insertionSort aggLE (aggregateProviders rows) with
    | nil => rfl
    | cons s rest =>
      show denseRank ((aggregateProviders rows).map seatsKey) (seatsKey s) = 1
      rw [denseRank_perm hperm]
      refine denseRank_head _ hsorted (seatsKey s) ?_
      rw [hl]
      rfl
  · have hch := denseRank_chain
      ((List.insertionSort aggLE (aggregateProviders rows)).map seatsKey) hsorted
    have hch2 : List.Chain' (fun u v =>
        denseRank ((aggregateProviders rows).map seatsKey) v =
          if v = u then denseRank ((aggregateProviders rows).map seatsKey) u
          else denseRank ((aggregateProviders rows).map seatsKey) u + 1)
        ((List.insertionSort aggLE (aggregateProviders rows)).map seatsKey) := by
      refine hch.imp (fun a b hab => ?_)
      rw [denseRank_perm hperm, denseRank_perm hperm]
      exact hab
    exact (List.chain'_map seatsKey).mp hch2

/-- **C8.** `summarize_providers` is deterministic (a pure function of the
rows), its output is ordered by seats rank ascending then provider name
ascending, every output row's seats rank is the dense rank of its own
(granted seats, seats rate) key, and two providers with identical keys get
identical seats ranks. -/
theorem claim_C8 (rows : List PRow) :
    summarizeAgg rows = summarizeAgg rows ∧
    List.Sorted outLE (summarizeAgg rows) ∧
    (∀ o ∈ summarizeAgg rows,
      o.rankPlatser = denseRank ((aggregateProviders rows).map seatsKey)
        (o.beviljadePlatser, o.gradPlatser)) ∧
    (∀ o₁ ∈ summarizeAgg rows, ∀ o₂ ∈ summarizeAgg rows,
      (o₁.beviljadePlatser, o₁.gradPlatser) =
        (o₂.beviljadePlatser, o₂.gradPlatser) →
      o₁.rankPlatser = o₂.rankPlatser) := by
  have hrank : ∀ o ∈ summarizeAgg rows,
      o.rankPlatser = denseRank ((aggregateProviders rows).map seatsKey)
        (o.beviljadePlatser, o.gradPlatser) := by
    intro o ho
    rw [summarizeAgg] at ho
    have ho' := (List.perm_insertionSort outLE _).mem_iff.mp ho
    obtain ⟨a, _, rfl⟩ := List.mem_map.mp ho'
    rfl
  refine ⟨rfl, ?_, hrank, fun o1 h1 o2 h2 hk => ?_⟩
  · rw [summarizeAgg]
    exact List.sorted_insertionSort outLE _
  · rw [hrank o1 h1, hrank o2 h2, hk]

/-- Witness for C8: in scenario C the tied providers P1 and P2 hold equal
keys and the theorem forces their seats ranks equal. -/
theorem claim_C8_witness :
    List.Sorted outLE (summarizeAgg scenarioC) ∧
    (OutRow.mk 1 "P1" 100 (some 200) 50 0 1 0 1).rankPlatser =
      (OutRow.mk 1 "P2" 100 (some 200) 50 0 1 0 1).rankPlatser :=
  ⟨(claim_C8 scenarioC).2.1,
   (claim_C8 scenarioC).2.2.2
     (OutRow.mk 1 "P1" 100 (some 200) 50 0 1 0 1)
     (by with_unfolding_all decide)
     (OutRow.mk 1 "P2" 100 (some 200) 50 0 1 0 1)
     (by with_unfolding_all decide)
     rfl⟩

/-! ### Fuzzy-match facts -/

theorem tupLT_irrefl (t : ℚ × String) : ¬ tupLT t t := by
  rintro (h | ⟨-, h⟩)
  · exact lt_irrefl _ h
  · exact lt_irrefl _ h

theorem tupLT_trans {a b c : ℚ × String} (hab : tupLT a b) (hbc : tupLT b c) :
    tupLT a c := by
  rcases hab with h1 | ⟨e1, h2⟩ <;> rcases hbc with h3 | ⟨e3, h4⟩
  · exact Or.inl (lt_trans h1 h3)
  · exact Or.inl (e3 ▸ h1)
  · exact Or.inl (e1 ▸ h3)
  · exact Or.inr ⟨e1.trans e3, lt_trans h2 h4⟩

theorem bestTuple_none (word : String) (l : List String) :
    bestTuple word l = none ↔ l = [] := by
  cases l with
  | nil => simp [bestTuple]
  | cons x rest =>
    rw [bestTuple]
    cases bestTuple word rest with
    | none => simp
    | some u =>
      by_cases h : tupLT u (smRatio x.data word.data, x) <;> simp [h]

theorem bestTuple_mem (word : String) (l : List String) (t : ℚ × String)
    (h : bestTuple word l = some t) :
    t.2 ∈ l ∧ t.1 = smRatio t.2.data word.data := by
  induction l with
  | nil => cases h
  | cons x rest ih =>
    rw [bestTuple] at h
    cases hb : bestTuple word rest with
    | none =>
      rw [hb] at h
      simp only [Option.some.injEq] at h
      obtain rfl := h
      exact ⟨List.mem_cons_self x rest, rfl⟩
    | some u =>
      rw [hb] at h
      by_cases ht : tupLT u (smRatio x.data word.data, x)
      · simp only [if_pos ht, Option.some.injEq] at h
        obtain rfl := h
        exact ⟨List.mem_cons_self x rest, rfl⟩
      · simp only [if_neg ht, Option.some.injEq] at h
        obtain rfl := h
        obtain ⟨hm, hr⟩ := ih hb
        exact ⟨List.mem_cons_of_mem x hm, hr⟩

theorem bestTuple_max (word : String) :
    ∀ (l : List String) (t : ℚ × String), bestTuple word l = some t →
      ∀ x ∈ l, ¬ tupLT t (smRatio x.data word.data, x) := by
  intro l
  induction l with
  | nil => intro t h; cases h
  | cons a rest ih =>
    intro t h x hx
    rw [bestTuple] at h
    cases hb : bestTuple word rest with
    | none =>
      rw [hb] at h
      have hrest : rest = [] := (bestTuple_none word rest).mp hb
      subst hrest
      obtain rfl : x = a := by simpa using hx
      simp only [Option.some.injEq] at h
      obtain rfl := h
      exact tupLT_irrefl _
    | some u =>
      rw [hb] at h
      rcases List.mem_cons.mp hx with rfl | hx'
      · by_cases ht : tupLT u (smRatio x.data word.data, x)
        · simp only [if_pos ht, Option.some.injEq] at h
          obtain rfl := h
          exact tupLT_irrefl _
        · simp only [if_neg ht, Option.some.injEq] at h
          obtain rfl := h
          exact ht
      · by_cases ht : tupLT u (smRatio a.data word.data, a)
        · simp only [if_pos ht, Option.some.injEq] at h
          obtain rfl := h
          intro hcon
          exact ih u hb x hx' (tupLT_trans ht hcon)
        · simp only [if_neg ht, Option.some.injEq] at h
          obtain rfl := h
          exact ih _ hb x hx'

/-- A key occurring in the map always looks up to a code. -/
theorem lookupCode_isSome (codeMap : List (String × String)) (k : String)
    (hk : k ∈ codeMap.map Prod.fst) : (lookupCode codeMap k).isSome := by
  obtain ⟨p, hp, hfst⟩ := List.mem_map.mp hk
  have hpf : p ∈ codeMap.filter (fun q => q.1 == k) :=
    List.mem_filter.mpr ⟨hp, by simp [hfst]⟩
  have hne : codeMap.filter (fun q => q.1 == k) ≠ [] :=
    List.ne_nil_of_mem hpf
  rw [lookupCode, Option.isSome_map']
  exact List.getLast?_isSome.mpr hne

/-- **C9.** `match_region_codes` returns `null` for a region name with no
sufficiently similar candidate among the code map's keys (never a default
code), and for a region with at least one passing candidate it returns the
code of the single best candidate (maximal in `(similarity, name)` order
over all passing keys). -/
theorem claim_C9 (region : String) (codeMap : List (String × String)) :
    ((∀ k ∈ dictKeys codeMap, ¬ passesCutoff k region) →
      matchRegionCodes [region] codeMap = [none]) ∧
    ((∃ k ∈ dictKeys codeMap, passesCutoff k region) →
      ∃ best, best ∈ dictKeys codeMap ∧ passesCutoff best region ∧
        (∀ k ∈ dictKeys codeMap, passesCutoff k region →
          ¬ tupLT (smRatio best.data region.data, best)
            (smRatio k.data region.data, k)) ∧
        matchRegionCodes [region] codeMap = [lookupCode codeMap best] ∧
        (lookupCode codeMap best).isSome) := by
  constructor
  · intro hnone
    have hfil : (dictKeys codeMap).filter
        (fun x => decide (passesCutoff x region)) = [] := by
      rw [List.filter_eq_nil_iff]
      intro k hk
      simpa using hnone k hk
    rw [matchRegionCodes, List.map_cons, List.map_nil, getCloseMatches1, hfil]
    rfl
  · rintro ⟨k0, hk0, hp0⟩
    have hk0f : k0 ∈ (dictKeys codeMap).filter
        (fun x => decide (passesCutoff x region)) :=
      List.mem_filter.mpr ⟨hk0, by simpa using hp0⟩
    cases hb : bestTuple region ((dictKeys codeMap).filter
        (fun x => decide (passesCutoff x region))) with
    | none =>
      exact absurd ((bestTuple_none _ _).mp hb ▸ hk0f) (List.not_mem_nil k0)
    | some t =>
      obtain ⟨htmem, htr⟩ := bestTuple_mem _ _ _ hb
      have htk : t.2 ∈ dictKeys codeMap := (List.mem_filter.mp htmem).1
      have htp : passesCutoff t.2 region := by
        have := (List.mem_filter.mp htmem).2
        simpa using this
      refine ⟨t.2, htk, htp, ?_, ?_,
        lookupCode_isSome codeMap t.2 (List.mem_dedup.mp htk)⟩
      · intro k hk hkp
        have hkf : k ∈ (dictKeys codeMap).filter
            (fun x => decide (passesCutoff x region)) :=
          List.mem_filter.mpr ⟨hk, by simpa using hkp⟩
        have hmax := bestTuple_max _ _ _ hb k hkf
        have ht2 : (smRatio t.2.data region.data, t.2) = t :=
          Prod.ext htr.symm rfl
        rw [ht2]
        exact hmax
      · rw [matchRegionCodes, List.map_cons, List.map_nil, getCloseMatches1, hb]

/-- Witness for C9: `"xy"` has no passing candidate in the tiny map and
yields `null`; `"ab"` matches exactly and yields its code. -/
theorem claim_C9_witness :
    matchRegionCodes ["xy"] tinyCodeMap = [none] ∧
    ∃ best, best ∈ dictKeys tinyCodeMap ∧ passesCutoff best "ab" ∧
      (∀ k ∈ dictKeys tinyCodeMap, passesCutoff k "ab" →
        ¬ tupLT (smRatio best.data "ab".data, best)
          (smRatio k.data "ab".data, k)) ∧
      matchRegionCodes ["ab"] tinyCodeMap = [lookupCode tinyCodeMap best] ∧
      (lookupCode tinyCodeMap best).isSome :=
  ⟨(claim_C9 "xy" tinyCodeMap).1 (by with_unfolding_all decide),
   (claim_C9 "ab" tinyCodeMap).2
     ⟨"ab", by with_unfolding_all decide, by with_unfolding_all decide⟩⟩

end YhDash
